import Mathlib

/-!
Shallow embedding of `src/area_division/src/area_division.cpp`
(cpswarm area_division ROS node).

Modelling conventions:
* `double` world coordinates are embedded as `ℚ`; C's `round` (round half
  away from zero) is embedded as `cround`.  ROS times and durations, which
  are integral tick counts, are embedded as `Int`.
* `std::map<std::string, V>` is embedded as an association list kept sorted
  strictly by key (`keySorted`), with `mfind`/`memplace`/`mupdate` mirroring
  `find`/`emplace` and in-place update through an iterator.
* Each ROS callback becomes a pure state transformer on `NodeState`, the
  record of the node's global variables.  `Time::now()` during one callback
  invocation is modelled as a single clock value passed to the callback.
* The DARP library object `division` (its `initialize_map`/`initialize_cps`/
  `divide`/`get_grid` methods live outside this repository) is modelled
  opaquely by the exact inputs the node hands to it (`DivisionState`), and
  `get_grid`'s output by the tuple of its arguments (`Response`).
-/

namespace AreaDivision

/-! ## Ordered map model (std::map) -/

/-- Linear scan lookup, as `std::map::find` observed through lookups. -/
def mfind {β : Type} : List (String × β) → String → Option β
  | [], _ => none
  | e :: rest, k => if e.1 = k then some e.2 else mfind rest k

/-- `std::map::emplace`: insert at the sorted position if the key is absent,
otherwise leave the map unchanged. -/
def memplace {β : Type} : List (String × β) → String → β → List (String × β)
  | [], k, v => [(k, v)]
  | e :: rest, k, v =>
    if k < e.1 then (k, v) :: e :: rest
    else if e.1 < k then e :: memplace rest k v
    else e :: rest

/-- In-place update of the value stored at a key (`idx->second = ...`);
no effect when the key is absent. -/
def mupdate {β : Type} : List (String × β) → String → β → List (String × β)
  | [], _, _ => []
  | e :: rest, k, v => if e.1 = k then (k, v) :: rest else e :: mupdate rest k v

/-- The `std::map` representation invariant: keys strictly increasing. -/
def keySorted {β : Type} (l : List (String × β)) : Prop :=
  l.Pairwise (fun a b => a.1 < b.1)

instance {β : Type} (l : List (String × β)) : Decidable (keySorted l) :=
  inferInstanceAs (Decidable (l.Pairwise _))

/-! ## Message and state data types -/

/-- World pose (`geometry_msgs::Pose`), restricted to the fields the node
reads: the x/y position. -/
structure Pose where
  x : ℚ
  y : ℚ
deriving DecidableEq, Repr

/-- `geometry_msgs::PoseStamped` as stored in `swarm_pose`: receipt time
plus pose. -/
structure PoseStamped where
  stamp : Int
  pose : Pose
deriving DecidableEq, Repr

/-- `nav_msgs::MapMetaData`: the fields `divide_area` reads. -/
structure MapMeta where
  width : Nat
  height : Nat
  resolution : ℚ
  originX : ℚ
  originY : ℚ
deriving DecidableEq, Repr

/-- `nav_msgs::OccupancyGrid`. -/
structure OccupancyGrid where
  info : MapMeta
  data : List Int
deriving DecidableEq, Repr

/-- One entry of `cpswarm_msgs::ArrayOfPositions`: the reporting node's id
(`swarmio.node`) and its pose. -/
structure PositionReport where
  node : String
  pose : Pose
deriving DecidableEq, Repr

/-- The inputs handed to the DARP `division` object by `divide_area`:
`initialize_map((int)width, (int)height, map)` and
`initialize_cps(swarm_grid)`.  The engine itself is outside this
repository, so it is modelled by what the node feeds it. -/
structure DivisionState where
  mapWidth : Nat
  mapHeight : Nat
  mapData : List Int
  cps : List (String × (Int × Int))
deriving DecidableEq, Repr

/-- The node's global variables. -/
structure NodeState where
  uuid : String
  pose : Pose
  pose_valid : Bool
  swarm_valid : Bool
  map_valid : Bool
  gridmap : OccupancyGrid
  swarm_pose : List (String × PoseStamped)
  reconfigure : Bool
  division : DivisionState
  swarm_timeout : Int
  visualize : Bool
deriving DecidableEq, Repr

/-! ## World-to-grid conversion and divide_area -/

/-- C's `round`: round half away from zero (`round(-0.5) = -1`), unlike
Mathlib's `round` which rounds half up. -/
def cround (x : ℚ) : Int := if x < 0 then -round (-x) else round x

/-- The coordinate conversion performed inline in `divide_area`:
`int(round((world - origin) / resolution))` on each axis. -/
def worldToGrid (g : OccupancyGrid) (p : Pose) : Int × Int :=
  (cround ((p.x - g.info.originX) / g.info.resolution),
   cround ((p.y - g.info.originY) / g.info.resolution))

/-- A grid coordinate lies inside the map bounds.  (Used only to state
claims; `divide_area` itself performs no such check.) -/
def inBounds (g : OccupancyGrid) (c : Int × Int) : Prop :=
  0 ≤ c.1 ∧ c.1 < (g.info.width : Int) ∧ 0 ≤ c.2 ∧ c.2 < (g.info.height : Int)

instance (g : OccupancyGrid) (c : Int × Int) : Decidable (inBounds g c) :=
  inferInstanceAs (Decidable (_ ∧ _))

/-- The loop in `divide_area` lines 10-15: for each registry entry, convert
its pose to a grid coordinate and `emplace` it into `swarm_grid`. -/
def buildSwarmGrid (g : OccupancyGrid) :
    List (String × PoseStamped) → List (String × (Int × Int)) →
    List (String × (Int × Int))
  | [], acc => acc
  | e :: rest, acc =>
      buildSwarmGrid g rest (memplace acc e.1 (worldToGrid g e.2.pose))

/-- The full engine input assembled by `divide_area`: the swarm grid from
the registry, then this robot's own coordinate `emplace`d under `uuid`,
then `initialize_map`/`initialize_cps` arguments. -/
def divisionInput (s : NodeState) : DivisionState :=
  let swarm_grid := buildSwarmGrid s.gridmap s.swarm_pose []
  let swarm_grid := memplace swarm_grid s.uuid (worldToGrid s.gridmap s.pose)
  ⟨s.gridmap.info.width, s.gridmap.info.height, s.gridmap.data, swarm_grid⟩

/-- `divide_area()`: rebuild the engine inputs and run the engine, then
clear the reconfiguration flag (line 34). -/
def divide_area (s : NodeState) : NodeState :=
  { s with division := divisionInput s, reconfigure := false }

/-- `division.get_grid(gridmap, uuid)` is library code outside this
repository; its output is modelled by the tuple of arguments determining
it: the engine state and the two call arguments. -/
structure Response where
  division : DivisionState
  gridmap : OccupancyGrid
  uuid : String
deriving DecidableEq, Repr

/-- `get_area`: recompute the division if `reconfigure` is set, then answer
from the (possibly refreshed) division state. -/
def get_area (s : NodeState) : NodeState × Response :=
  let s1 := if s.reconfigure then divide_area s else s
  (s1, ⟨s1.division, s1.gridmap, s1.uuid⟩)

/-! ## Callbacks -/

/-- `uuid_callback`: store the received value. -/
def uuid_callback (s : NodeState) (v : String) : NodeState :=
  { s with uuid := v }

/-- `pose_callback`: store the new pose; mark it valid when the message
stamp is valid. -/
def pose_callback (s : NodeState) (stampValid : Bool) (p : Pose) : NodeState :=
  let s1 := { s with pose := p }
  if stampValid then { s1 with pose_valid := true } else s1

/-- One iteration of the first loop of `swarm_callback` (lines 86-107):
unknown id ⇒ emplace a fresh record stamped `now` and set `reconfigure`;
known id ⇒ refresh that record's stamp and pose in place. -/
def processReport (now : Int) (s : NodeState) (r : PositionReport) : NodeState :=
  match mfind s.swarm_pose r.node with
  | none =>
      { s with swarm_pose := memplace s.swarm_pose r.node ⟨now, r.pose⟩,
               reconfigure := true }
  | some _ =>
      { s with swarm_pose := mupdate s.swarm_pose r.node ⟨now, r.pose⟩ }

/-- The erase loop of `swarm_callback` (lines 110-121): drop every record
with `stamp + timeout < now`, setting `reconfigure` per removal.  Returns
the surviving registry and the resulting flag. -/
def pruneLoop (now timeout : Int) :
    List (String × PoseStamped) → Bool → List (String × PoseStamped) × Bool
  | [], rec => ([], rec)
  | e :: rest, rec =>
      if e.2.stamp + timeout < now then pruneLoop now timeout rest true
      else
        let pr := pruneLoop now timeout rest rec
        (e :: pr.1, pr.2)

/-- `swarm_callback`: process each report, prune stale records, then mark
swarm information valid. -/
def swarm_callback (now : Int) (s : NodeState) (reports : List PositionReport) :
    NodeState :=
  let s1 := reports.foldl (processReport now) s
  let pr := pruneLoop now s1.swarm_timeout s1.swarm_pose s1.reconfigure
  { s1 with swarm_pose := pr.1, reconfigure := pr.2, swarm_valid := true }

/-- `map_callback`: replace the stored grid wholesale and mark it valid. -/
def map_callback (s : NodeState) (g : OccupancyGrid) : NodeState :=
  { s with gridmap := g, map_valid := true }

/-! ## Startup (main) as a readiness state machine -/

/-- An incoming message, dispatched by `spinOnce`. -/
inductive Msg where
  | uuidMsg (v : String)
  | poseMsg (stampValid : Bool) (p : Pose)
  | swarmMsg (now : Int) (reports : List PositionReport)
  | mapMsg (g : OccupancyGrid)
deriving DecidableEq, Repr

/-- Callback dispatch. -/
def handle (s : NodeState) : Msg → NodeState
  | .uuidMsg v => uuid_callback s v
  | .poseMsg sv p => pose_callback s sv p
  | .swarmMsg now rs => swarm_callback now s rs
  | .mapMsg g => map_callback s g

/-- The stage of `main`'s startup sequencing: the three busy-wait loops
(lines 177-195) followed by service availability (line 201). -/
inductive Phase where
  | awaitingIdentity
  | awaitingPoseSwarm
  | awaitingMap
  | ready
deriving DecidableEq, Repr

/-- Order of the phases. -/
def phaseIdx : Phase → Nat
  | .awaitingIdentity => 0
  | .awaitingPoseSwarm => 1
  | .awaitingMap => 2
  | .ready => 3

/-- After a `spinOnce`, fall through every wait loop whose condition now
holds: loop 1 exits once `uuid` is non-empty, loop 2 once the own pose and
swarm information are valid, loop 3 once the map is valid. -/
def advance : Phase → NodeState → Phase
  | .awaitingIdentity, s =>
      if s.uuid = "" then .awaitingIdentity
      else if !(s.pose_valid && s.swarm_valid) then .awaitingPoseSwarm
      else if !s.map_valid then .awaitingMap
      else .ready
  | .awaitingPoseSwarm, s =>
      if !(s.pose_valid && s.swarm_valid) then .awaitingPoseSwarm
      else if !s.map_valid then .awaitingMap
      else .ready
  | .awaitingMap, s => if !s.map_valid then .awaitingMap else .ready
  | .ready, _ => .ready

/-- The `area/assigned` service exists only once startup has completed. -/
def serviceAvailable : Phase → Bool
  | .ready => true
  | _ => false

/-- The node's globals right after `main`'s initialization (lines 148-163):
`reconfigure = true`, empty uuid, all validity flags false, default-value
objects, and the parameters read (without any validation) from the
parameter server. -/
def initState (swarm_timeout : Int) (visualize : Bool) : NodeState :=
  { uuid := ""
    pose := ⟨0, 0⟩
    pose_valid := false
    swarm_valid := false
    map_valid := false
    gridmap := ⟨⟨0, 0, 0, 0, 0⟩, []⟩
    swarm_pose := []
    reconfigure := true
    division := ⟨0, 0, [], []⟩
    swarm_timeout := swarm_timeout
    visualize := visualize }

/-- One `rate.sleep(); spinOnce()` round delivering one message, followed by
re-checking the wait-loop conditions. -/
def stepSys (c : Phase × NodeState) (m : Msg) : Phase × NodeState :=
  let s1 := handle c.2 m
  (advance c.1 s1, s1)

/-- The startup sequencing run on a message trace, starting from the
initialized globals in the first wait loop. -/
def runSys (swarm_timeout : Int) (msgs : List Msg) : Phase × NodeState :=
  msgs.foldl stepSys (.awaitingIdentity, initState swarm_timeout false)

/-- The hardcoded optimizer configuration `division.setup(1, 0.01, 1e-4, 30)`
(line 198): importance weight, minimum margin, convergence threshold,
max iterations. -/
def setupArgs : ℚ × ℚ × ℚ × Int := (1, 1/100, 1/10000, 30)

/-! ## Ordered map lemmas -/

theorem mem_memplace {β : Type} {k : String} {v : β} :
    ∀ {l : List (String × β)} {x : String × β},
      x ∈ memplace l k v → x = (k, v) ∨ x ∈ l
  | [], x, h => by
    simp only [memplace, List.mem_singleton] at h
    exact Or.inl h
  | e :: rest, x, h => by
    simp only [memplace] at h
    split at h
    · rcases List.mem_cons.mp h with h | h
      · exact Or.inl h
      · exact Or.inr h
    · split at h
      · rcases List.mem_cons.mp h with h | h
        · exact Or.inr (List.mem_cons.mpr (Or.inl h))
        · rcases mem_memplace h with h | h
          · exact Or.inl h
          · exact Or.inr (List.mem_cons.mpr (Or.inr h))
      · exact Or.inr h

theorem keySorted_memplace {β : Type} {k : String} {v : β} :
    ∀ {l : List (String × β)}, keySorted l → keySorted (memplace l k v)
  | [], _ => by simp [memplace, keySorted]
  | e :: rest, h => by
    have hp := List.pairwise_cons.mp h
    simp only [memplace]
    split
    · rename_i h1
      refine List.pairwise_cons.mpr ⟨?_, h⟩
      intro x hx
      rcases List.mem_cons.mp hx with rfl | hx
      · exact h1
      · exact lt_trans h1 (hp.1 x hx)
    · split
      · rename_i h1 h2
        refine List.pairwise_cons.mpr ⟨?_, keySorted_memplace hp.2⟩
        intro x hx
        rcases mem_memplace hx with rfl | hx
        · exact h2
        · exact hp.1 x hx
      · exact h

theorem mupdate_keys {β : Type} {k : String} {v : β} :
    ∀ (l : List (String × β)), (mupdate l k v).map Prod.fst = l.map Prod.fst
  | [] => rfl
  | e :: rest => by
    simp only [mupdate]
    split
    · rename_i h1
      simp [h1]
    · simp [mupdate_keys rest]

theorem keySorted_iff_keys {β : Type} (l : List (String × β)) :
    keySorted l ↔ (l.map Prod.fst).Pairwise (fun a b => a < b) := by
  simp [keySorted, List.pairwise_map]

theorem keySorted_mupdate {β : Type} {k : String} {v : β}
    {l : List (String × β)} (h : keySorted l) : keySorted (mupdate l k v) := by
  rw [keySorted_iff_keys] at h ⊢
  rw [mupdate_keys]
  exact h

theorem mfind_eq_none_iff {β : Type} {k : String} :
    ∀ {l : List (String × β)}, mfind l k = none ↔ k ∉ l.map Prod.fst
  | [] => by simp [mfind]
  | e :: rest => by
    simp only [mfind, List.map_cons, List.mem_cons]
    by_cases h1 : e.1 = k
    · rw [if_pos h1]
      constructor
      · intro hn
        exact (Option.some_ne_none _ hn).elim
      · intro hn
        exact absurd (Or.inl h1.symm) hn
    · rw [if_neg h1]
      rw [mfind_eq_none_iff]
      constructor
      · intro hn hc
        rcases hc with hc | hc
        · exact h1 hc.symm
        · exact hn hc
      · intro hn hc
        exact hn (Or.inr hc)

theorem mfind_memplace_ne {β : Type} {k k' : String} {v : β} (hne : k' ≠ k) :
    ∀ (l : List (String × β)), mfind (memplace l k v) k' = mfind l k'
  | [] => by
    simp [memplace, mfind, Ne.symm hne]
  | e :: rest => by
    simp only [memplace]
    split
    · simp [mfind, Ne.symm hne]
    · split
      · simp only [mfind]
        split
        · rfl
        · exact mfind_memplace_ne hne rest
      · rfl

theorem mfind_memplace_none {β : Type} {k : String} {v : β} :
    ∀ {l : List (String × β)}, mfind l k = none →
      mfind (memplace l k v) k = some v
  | [], _ => by simp [memplace, mfind]
  | e :: rest, h => by
    simp only [mfind] at h
    by_cases h1 : e.1 = k
    · rw [if_pos h1] at h
      exact (Option.some_ne_none _ h).elim
    · rw [if_neg h1] at h
      simp only [memplace]
      by_cases h2 : k < e.1
      · rw [if_pos h2]
        simp [mfind]
      · have h3 : e.1 < k := lt_of_le_of_ne (not_lt.mp h2) h1
        rw [if_neg h2, if_pos h3]
        simp only [mfind, if_neg h1]
        exact mfind_memplace_none h

theorem mfind_memplace_self_isSome {β : Type} {k : String} {v : β} :
    ∀ (l : List (String × β)), (mfind (memplace l k v) k).isSome = true
  | [] => by simp [memplace, mfind]
  | e :: rest => by
    simp only [memplace]
    by_cases h1 : k < e.1
    · rw [if_pos h1]
      simp [mfind]
    · rw [if_neg h1]
      by_cases h2 : e.1 < k
      · rw [if_pos h2]
        simp only [mfind]
        split
        · simp
        · exact mfind_memplace_self_isSome rest
      · rw [if_neg h2]
        have h3 : e.1 = k := le_antisymm (not_lt.mp h1) (not_lt.mp h2)
        simp [mfind, h3]

theorem memplace_ne_nil {β : Type} {k : String} {v : β} :
    ∀ (l : List (String × β)), memplace l k v ≠ []
  | [] => by simp [memplace]
  | e :: rest => by
    simp only [memplace]
    split
    · simp
    · split <;> simp

theorem mfind_mupdate_self {β : Type} {k : String} {v : β} :
    ∀ {l : List (String × β)}, (mfind l k).isSome = true →
      mfind (mupdate l k v) k = some v
  | [], h => by simp [mfind] at h
  | e :: rest, h => by
    simp only [mupdate]
    by_cases h1 : e.1 = k
    · rw [if_pos h1]
      simp [mfind]
    · rw [if_neg h1]
      simp only [mfind, if_neg h1] at h
      simp only [mfind, if_neg h1]
      exact mfind_mupdate_self h

theorem mfind_mupdate_ne {β : Type} {k k' : String} {v : β} (hne : k' ≠ k) :
    ∀ (l : List (String × β)), mfind (mupdate l k v) k' = mfind l k'
  | [] => rfl
  | e :: rest => by
    simp only [mupdate]
    by_cases h1 : e.1 = k
    · rw [if_pos h1]
      have h2 : ¬ (k = k') := fun h => hne h.symm
      have h3 : ¬ (e.1 = k') := fun h => h2 (h1.symm.trans h)
      simp [mfind, h2, h3]
    · rw [if_neg h1]
      simp only [mfind]
      split
      · rfl
      · exact mfind_mupdate_ne hne rest

theorem pruneLoop_fst (now tmo : Int) :
    ∀ (l : List (String × PoseStamped)) (rec : Bool),
      (pruneLoop now tmo l rec).1 =
        l.filter (fun e => !decide (e.2.stamp + tmo < now))
  | [], _ => rfl
  | e :: rest, rec => by
    simp only [pruneLoop, List.filter_cons]
    by_cases h : e.2.stamp + tmo < now
    · rw [if_pos h]
      simp [h, pruneLoop_fst now tmo rest true]
    · rw [if_neg h]
      simp [h, pruneLoop_fst now tmo rest rec]

theorem pruneLoop_snd (now tmo : Int) :
    ∀ (l : List (String × PoseStamped)) (rec : Bool),
      (pruneLoop now tmo l rec).2 =
        (rec || l.any (fun e => decide (e.2.stamp + tmo < now)))
  | [], _ => by simp [pruneLoop]
  | e :: rest, rec => by
    simp only [pruneLoop, List.any_cons]
    by_cases h : e.2.stamp + tmo < now
    · rw [if_pos h]
      rw [pruneLoop_snd now tmo rest true]
      simp [h]
    · rw [if_neg h]
      simp [h, pruneLoop_snd now tmo rest rec]

theorem keySorted_pruneLoop {now tmo : Int} {l : List (String × PoseStamped)}
    {rec : Bool} (h : keySorted l) : keySorted (pruneLoop now tmo l rec).1 := by
  rw [pruneLoop_fst]
  exact List.Pairwise.sublist (List.filter_sublist l) h

theorem keySorted_buildSwarmGrid (g : OccupancyGrid) :
    ∀ (l : List (String × PoseStamped)) (acc : List (String × (Int × Int))),
      keySorted acc → keySorted (buildSwarmGrid g l acc)
  | [], _, h => h
  | _ :: rest, _, h =>
      keySorted_buildSwarmGrid g rest _ (keySorted_memplace h)

theorem mfind_buildSwarmGrid_notin (g : OccupancyGrid) {k : String} :
    ∀ (l : List (String × PoseStamped)) (acc : List (String × (Int × Int))),
      mfind l k = none → mfind (buildSwarmGrid g l acc) k = mfind acc k
  | [], _, _ => rfl
  | e :: rest, acc, h => by
    simp only [mfind] at h
    by_cases h1 : e.1 = k
    · rw [if_pos h1] at h
      exact (Option.some_ne_none _ h).elim
    · rw [if_neg h1] at h
      simp only [buildSwarmGrid]
      rw [mfind_buildSwarmGrid_notin g rest _ h]
      exact mfind_memplace_ne (fun hk => h1 hk.symm) acc

theorem mfind_buildSwarmGrid_some (g : OccupancyGrid) {k : String}
    {v : PoseStamped} :
    ∀ (l : List (String × PoseStamped)) (acc : List (String × (Int × Int))),
      keySorted l → mfind acc k = none → mfind l k = some v →
      mfind (buildSwarmGrid g l acc) k = some (worldToGrid g v.pose)
  | [], _, _, _, h => by cases h
  | e :: rest, acc, hs, hacc, h => by
    have hp := List.pairwise_cons.mp hs
    simp only [mfind] at h
    by_cases h1 : e.1 = k
    · rw [if_pos h1] at h
      injection h with h
      subst h
      have hrest : mfind rest k = none := by
        rw [mfind_eq_none_iff]
        intro hmem
        rcases List.mem_map.mp hmem with ⟨x, hx, hfst⟩
        have hlt := hp.1 x hx
        rw [h1, hfst] at hlt
        exact lt_irrefl k hlt
      simp only [buildSwarmGrid]
      rw [mfind_buildSwarmGrid_notin g rest _ hrest, h1]
      exact mfind_memplace_none hacc
    · rw [if_neg h1] at h
      simp only [buildSwarmGrid]
      have hacc' :
          mfind (memplace acc e.1 (worldToGrid g e.2.pose)) k = none := by
        rw [mfind_memplace_ne (fun hk => h1 hk.symm)]
        exact hacc
      exact mfind_buildSwarmGrid_some g rest _ hp.2 hacc' h

theorem mfind_tail_none {β : Type} {a : String × β} {t : List (String × β)}
    (hp : ∀ x ∈ t, a.1 < x.1) : mfind t a.1 = none := by
  rw [mfind_eq_none_iff]
  intro hmem
  rcases List.mem_map.mp hmem with ⟨x, hx, hfst⟩
  exact absurd (hfst ▸ hp x hx) (lt_irrefl a.1)

theorem keySorted_ext {β : Type} :
    ∀ {l1 l2 : List (String × β)}, keySorted l1 → keySorted l2 →
      (∀ k, mfind l1 k = mfind l2 k) → l1 = l2
  | [], [], _, _, _ => rfl
  | [], e :: _, _, _, h => by
    have he := h e.1
    simp [mfind] at he
  | e :: _, [], _, _, h => by
    have he := h e.1
    simp [mfind] at he
  | a :: t1, b :: t2, h1, h2, h => by
    have hp1 := List.pairwise_cons.mp h1
    have hp2 := List.pairwise_cons.mp h2
    have hmem1 : a.1 ∈ (b :: t2).map Prod.fst := by
      by_contra hc
      have hn := (mfind_eq_none_iff (k := a.1)).mpr hc
      rw [← h a.1] at hn
      simp [mfind] at hn
    have hmem2 : b.1 ∈ (a :: t1).map Prod.fst := by
      by_contra hc
      have hn := (mfind_eq_none_iff (k := b.1)).mpr hc
      rw [h b.1] at hn
      simp [mfind] at hn
    have hb_le : b.1 ≤ a.1 := by
      rcases List.mem_cons.mp hmem1 with heq | hmem
      · exact le_of_eq heq.symm
      · rcases List.mem_map.mp hmem with ⟨x, hx, hfst⟩
        exact le_of_lt (hfst ▸ hp2.1 x hx)
    have ha_le : a.1 ≤ b.1 := by
      rcases List.mem_cons.mp hmem2 with heq | hmem
      · exact le_of_eq heq.symm
      · rcases List.mem_map.mp hmem with ⟨x, hx, hfst⟩
        exact le_of_lt (hfst ▸ hp1.1 x hx)
    have hab : a.1 = b.1 := le_antisymm ha_le hb_le
    have hval : a.2 = b.2 := by
      have hv := h a.1
      simp [mfind, ← hab] at hv
      exact hv
    have htail : ∀ k, mfind t1 k = mfind t2 k := by
      intro k
      by_cases hk : k = a.1
      · subst hk
        rw [mfind_tail_none hp1.1, mfind_tail_none (hab ▸ hp2.1)]
      · have e1 : mfind (a :: t1) k = mfind t1 k := by
          simp only [mfind, if_neg (fun hh : a.1 = k => hk hh.symm)]
        have e2 : mfind (b :: t2) k = mfind t2 k := by
          simp only [mfind, if_neg (fun hh : b.1 = k => hk (hab.trans hh).symm)]
        rw [← e1, ← e2]
        exact h k
    have hhead : a = b := Prod.ext hab hval
    rw [hhead, keySorted_ext hp1.2 hp2.2 htail]

/-! ## Frame and invariant lemmas on the node state -/

theorem processReport_frame (now : Int) (s : NodeState) (r : PositionReport) :
    (processReport now s r).uuid = s.uuid ∧
    (processReport now s r).pose = s.pose ∧
    (processReport now s r).pose_valid = s.pose_valid ∧
    (processReport now s r).swarm_valid = s.swarm_valid ∧
    (processReport now s r).map_valid = s.map_valid ∧
    (processReport now s r).gridmap = s.gridmap ∧
    (processReport now s r).division = s.division ∧
    (processReport now s r).swarm_timeout = s.swarm_timeout := by
  simp only [processReport]
  split <;> simp

theorem foldl_processReport_frame (now : Int) :
    ∀ (rs : List PositionReport) (s : NodeState),
      (rs.foldl (processReport now) s).uuid = s.uuid ∧
      (rs.foldl (processReport now) s).pose = s.pose ∧
      (rs.foldl (processReport now) s).pose_valid = s.pose_valid ∧
      (rs.foldl (processReport now) s).swarm_valid = s.swarm_valid ∧
      (rs.foldl (processReport now) s).map_valid = s.map_valid ∧
      (rs.foldl (processReport now) s).gridmap = s.gridmap ∧
      (rs.foldl (processReport now) s).division = s.division ∧
      (rs.foldl (processReport now) s).swarm_timeout = s.swarm_timeout
  | [], _ => ⟨rfl, rfl, rfl, rfl, rfl, rfl, rfl, rfl⟩
  | r :: rest, s => by
    have h1 := processReport_frame now s r
    have h2 := foldl_processReport_frame now rest (processReport now s r)
    simp only [List.foldl_cons]
    exact ⟨h2.1.trans h1.1, h2.2.1.trans h1.2.1, h2.2.2.1.trans h1.2.2.1,
      h2.2.2.2.1.trans h1.2.2.2.1, h2.2.2.2.2.1.trans h1.2.2.2.2.1,
      h2.2.2.2.2.2.1.trans h1.2.2.2.2.2.1,
      h2.2.2.2.2.2.2.1.trans h1.2.2.2.2.2.2.1,
      h2.2.2.2.2.2.2.2.trans h1.2.2.2.2.2.2.2⟩

theorem swarm_callback_frame (now : Int) (s : NodeState)
    (rs : List PositionReport) :
    (swarm_callback now s rs).uuid = s.uuid ∧
    (swarm_callback now s rs).pose = s.pose ∧
    (swarm_callback now s rs).pose_valid = s.pose_valid ∧
    (swarm_callback now s rs).swarm_valid = true ∧
    (swarm_callback now s rs).map_valid = s.map_valid ∧
    (swarm_callback now s rs).gridmap = s.gridmap ∧
    (swarm_callback now s rs).division = s.division ∧
    (swarm_callback now s rs).swarm_timeout = s.swarm_timeout := by
  have h := foldl_processReport_frame now rs s
  exact ⟨h.1, h.2.1, h.2.2.1, rfl, h.2.2.2.2.1, h.2.2.2.2.2.1,
    h.2.2.2.2.2.2.1, h.2.2.2.2.2.2.2⟩

theorem handle_flags_mono (s : NodeState) (m : Msg) :
    (s.pose_valid = true → (handle s m).pose_valid = true) ∧
    (s.swarm_valid = true → (handle s m).swarm_valid = true) ∧
    (s.map_valid = true → (handle s m).map_valid = true) := by
  cases m with
  | uuidMsg v => exact ⟨id, id, id⟩
  | poseMsg sv p =>
    simp only [handle, pose_callback]
    split
    · exact ⟨fun _ => rfl, id, id⟩
    · exact ⟨id, id, id⟩
  | swarmMsg now rs =>
    have h := swarm_callback_frame now s rs
    exact ⟨fun hp => h.2.2.1.trans hp, fun _ => h.2.2.2.1,
      fun hm => h.2.2.2.2.1.trans hm⟩
  | mapMsg g => exact ⟨id, id, fun _ => rfl⟩

theorem keySorted_processReport {now : Int} {s : NodeState} (r : PositionReport)
    (h : keySorted s.swarm_pose) : keySorted (processReport now s r).swarm_pose := by
  simp only [processReport]
  split
  · exact keySorted_memplace h
  · exact keySorted_mupdate h

theorem keySorted_foldl_processReport (now : Int) :
    ∀ (rs : List PositionReport) (s : NodeState), keySorted s.swarm_pose →
      keySorted ((rs.foldl (processReport now) s)).swarm_pose
  | [], _, h => h
  | r :: rest, _, h =>
      keySorted_foldl_processReport now rest _ (keySorted_processReport r h)

theorem keySorted_handle {s : NodeState} (m : Msg)
    (h : keySorted s.swarm_pose) : keySorted (handle s m).swarm_pose := by
  cases m with
  | uuidMsg v => exact h
  | poseMsg sv p =>
    simp only [handle, pose_callback]
    split
    · exact h
    · exact h
  | swarmMsg now rs =>
    simp only [handle, swarm_callback]
    exact keySorted_pruneLoop (keySorted_foldl_processReport now rs s h)
  | mapMsg g => exact h

theorem keySorted_foldl_stepSys :
    ∀ (msgs : List Msg) (c : Phase × NodeState), keySorted c.2.swarm_pose →
      keySorted (msgs.foldl stepSys c).2.swarm_pose
  | [], _, h => h
  | m :: rest, _, h =>
      keySorted_foldl_stepSys rest _ (keySorted_handle m h)

/-! ## Startup phase lemmas -/

theorem serviceAvailable_eq_ready (p : Phase) :
    serviceAvailable p = true ↔ p = .ready := by
  cases p <;> simp [serviceAvailable]

theorem phaseIdx_advance_mono (p : Phase) (s : NodeState) :
    phaseIdx p ≤ phaseIdx (advance p s) := by
  cases p <;> simp only [advance] <;> (try split_ifs) <;> simp [phaseIdx]

theorem advance_identity_gate (s : NodeState)
    (h : advance .awaitingIdentity s ≠ .awaitingIdentity) : s.uuid ≠ "" := by
  intro hu
  simp [advance, hu] at h

theorem advance_flags2 (p : Phase) (s : NodeState)
    (h : 2 ≤ phaseIdx (advance p s)) :
    2 ≤ phaseIdx p ∨ (s.pose_valid = true ∧ s.swarm_valid = true) := by
  cases hp : (s.pose_valid && s.swarm_valid)
  · left
    cases p with
    | awaitingIdentity =>
      by_cases hu : s.uuid = "" <;> simp [advance, hu, hp, phaseIdx] at h
    | awaitingPoseSwarm =>
      simp [advance, hp, phaseIdx] at h
    | awaitingMap => simp [phaseIdx]
    | ready => simp [phaseIdx]
  · right
    simpa using hp

theorem advance_flags3 (p : Phase) (s : NodeState)
    (h : advance p s = .ready) : p = .ready ∨ s.map_valid = true := by
  cases p with
  | ready => exact Or.inl rfl
  | awaitingMap =>
    cases hm : s.map_valid
    · simp [advance, hm] at h
    · exact Or.inr rfl
  | awaitingPoseSwarm =>
    cases hm : s.map_valid
    · cases hp : (s.pose_valid && s.swarm_valid) <;> simp [advance, hm, hp] at h
    · exact Or.inr rfl
  | awaitingIdentity =>
    cases hm : s.map_valid
    · by_cases hu : s.uuid = "" <;>
        cases hp : (s.pose_valid && s.swarm_valid) <;>
        simp [advance, hm, hu, hp] at h
    · exact Or.inr rfl

theorem phaseIdx_three (p : Phase) (h : 3 ≤ phaseIdx p) : p = .ready := by
  cases p
  · exact absurd h (by decide)
  · exact absurd h (by decide)
  · exact absurd h (by decide)
  · rfl

theorem foldl_stepSys_flags :
    ∀ (msgs : List Msg) (c : Phase × NodeState),
      ((2 ≤ phaseIdx c.1 → c.2.pose_valid = true ∧ c.2.swarm_valid = true) ∧
       (3 ≤ phaseIdx c.1 → c.2.map_valid = true)) →
      ((2 ≤ phaseIdx (msgs.foldl stepSys c).1 →
          (msgs.foldl stepSys c).2.pose_valid = true ∧
          (msgs.foldl stepSys c).2.swarm_valid = true) ∧
       (3 ≤ phaseIdx (msgs.foldl stepSys c).1 →
          (msgs.foldl stepSys c).2.map_valid = true))
  | [], _, h => h
  | m :: rest, c, h => by
    refine foldl_stepSys_flags rest (stepSys c m) ⟨?_, ?_⟩
    · intro h2
      rcases advance_flags2 c.1 (handle c.2 m) h2 with hp | hf
      · have hc := h.1 hp
        have hm := handle_flags_mono c.2 m
        exact ⟨hm.1 hc.1, hm.2.1 hc.2⟩
      · exact hf
    · intro h3
      have hr : advance c.1 (handle c.2 m) = .ready := phaseIdx_three _ h3
      rcases advance_flags3 c.1 (handle c.2 m) hr with hp | hf
      · have hc := h.2 (by rw [hp]; decide)
        exact (handle_flags_mono c.2 m).2.2 hc
      · exact hf

theorem runSys_flags (t : Int) (msgs : List Msg)
    (h : (runSys t msgs).1 = .ready) :
    (runSys t msgs).2.pose_valid = true ∧
    (runSys t msgs).2.swarm_valid = true ∧
    (runSys t msgs).2.map_valid = true := by
  have hf := foldl_stepSys_flags msgs (.awaitingIdentity, initState t false)
    ⟨fun hc => by simp [phaseIdx] at hc, fun hc => by simp [phaseIdx] at hc⟩
  have h2 : 2 ≤ phaseIdx (runSys t msgs).1 := by rw [h]; decide
  have h3 : 3 ≤ phaseIdx (runSys t msgs).1 := by rw [h]; decide
  exact ⟨(hf.1 h2).1, (hf.1 h2).2, hf.2 h3⟩

/-! ## Concrete inputs for counterexamples and witnesses -/

/-- A 2×2 all-free grid, resolution 1, origin (0,0). -/
def gridA : OccupancyGrid := ⟨⟨2, 2, 1, 0, 0⟩, [0, 0, 0, 0]⟩

/-- A complete startup trace: identity, valid own pose, swarm info, map. -/
def fullTrace : List Msg :=
  [.uuidMsg "robot0", .poseMsg true ⟨1, 1⟩, .swarmMsg 0 [], .mapMsg gridA]

/-- A fully initialized node state with one other registered robot. -/
def stateA : NodeState :=
  { uuid := "robot0", pose := ⟨1, 1⟩, pose_valid := true, swarm_valid := true,
    map_valid := true, gridmap := gridA,
    swarm_pose := [("robot1", ⟨0, ⟨3, 4⟩⟩)],
    reconfigure := true, division := ⟨0, 0, [], []⟩,
    swarm_timeout := 5, visualize := false }

/-- A world pose far outside `gridA`. -/
def outPose : Pose := ⟨10, 10⟩

/-- `stateA` with the own pose out of map bounds and an empty registry. -/
def stateOut : NodeState := { stateA with pose := outPose, swarm_pose := [] }

/-- `stateA` with the identity already assigned a non-empty value. -/
def c3State : NodeState := { stateA with uuid := "alpha" }

/-- `stateA` with one record stamped 0 (stale at now = 10, timeout 5). -/
def staleState : NodeState :=
  { stateA with swarm_pose := [("old", ⟨0, ⟨0, 0⟩⟩)] }

/-- `stateA` with only partition-irrelevant fields changed. -/
def stateA2 : NodeState :=
  { stateA with reconfigure := false, division := ⟨1, 1, [0], []⟩ }

/-! ## Claims -/

/-- C1: `get_area` recomputes the partition via `divide_area` exactly when
the reconfiguration flag is set — that run clears the flag and the response
is built from the fresh engine input — and when the flag is clear it reuses
the previously computed division without recomputation; in both cases the
flag is false after the call. -/
theorem C1_get_area_trigger (s : NodeState) :
    (get_area s).1.reconfigure = false ∧
    (s.reconfigure = true →
      (get_area s).1 = divide_area s ∧
      (get_area s).1.division = divisionInput s ∧
      (get_area s).2 = ⟨divisionInput s, s.gridmap, s.uuid⟩) ∧
    (s.reconfigure = false →
      (get_area s).1 = s ∧
      (get_area s).1.division = s.division ∧
      (get_area s).2 = ⟨s.division, s.gridmap, s.uuid⟩) := by
  cases h : s.reconfigure
  · simp [get_area, h]
  · simp [get_area, divide_area, h]

/-- Witness for C1 at concrete states exercising both branches. -/
theorem C1_get_area_trigger_witness :
    (get_area stateA).1 = divide_area stateA ∧
    (get_area { stateA with reconfigure := false }).1 =
      { stateA with reconfigure := false } :=
  ⟨((C1_get_area_trigger stateA).2.1 (by decide)).1,
   ((C1_get_area_trigger { stateA with reconfigure := false }).2.2
      (by decide)).1⟩

/-- C2 counterexample: with a 2×2 map (resolution 1, origin (0,0)) and own
world pose (10,10), the conversion produces the out-of-bounds grid
coordinate (10,10) and `divide_area` hands it to the engine unchanged — no
defined error is raised and nothing is clamped. -/
theorem C2_counterexample :
    worldToGrid gridA outPose = (10, 10) ∧
    ¬ inBounds gridA (10, 10) ∧
    (divisionInput stateOut).cps = [("robot0", (10, 10))] ∧
    (divide_area stateOut).division.cps = [("robot0", (10, 10))] := by
  have hw : worldToGrid gridA outPose = (10, 10) := by
    rw [worldToGrid]
    norm_num [gridA, outPose, cround, round_eq]
  refine ⟨hw, by decide, ?_, ?_⟩
  · show memplace (buildSwarmGrid stateOut.gridmap stateOut.swarm_pose [])
      stateOut.uuid (worldToGrid stateOut.gridmap stateOut.pose) = _
    rw [show worldToGrid stateOut.gridmap stateOut.pose = (10, 10) from hw]
    rfl
  · show memplace (buildSwarmGrid stateOut.gridmap stateOut.swarm_pose [])
      stateOut.uuid (worldToGrid stateOut.gridmap stateOut.pose) = _
    rw [show worldToGrid stateOut.gridmap stateOut.pose = (10, 10) from hw]
    rfl

/-- C2 amended: the conversion maps each axis via
round((world − origin) / resolution); there is no bounds check — every
registered pose's conversion, in or out of range, is handed to the engine
unmodified (no error, no clamping). -/
theorem C2_world_to_grid (s : NodeState) (hs : keySorted s.swarm_pose) :
    (∀ (g : OccupancyGrid) (p : Pose),
      worldToGrid g p =
        (cround ((p.x - g.info.originX) / g.info.resolution),
         cround ((p.y - g.info.originY) / g.info.resolution))) ∧
    (∀ k v, mfind s.swarm_pose k = some v → k ≠ s.uuid →
      mfind (divisionInput s).cps k = some (worldToGrid s.gridmap v.pose)) ∧
    (mfind s.swarm_pose s.uuid = none →
      mfind (divisionInput s).cps s.uuid =
        some (worldToGrid s.gridmap s.pose)) := by
  refine ⟨fun g p => rfl, fun k v hk hne => ?_, fun hu => ?_⟩
  · have h1 : mfind (divisionInput s).cps k =
        mfind (buildSwarmGrid s.gridmap s.swarm_pose []) k :=
      mfind_memplace_ne hne _
    rw [h1]
    exact mfind_buildSwarmGrid_some s.gridmap s.swarm_pose [] hs rfl hk
  · have hsg : mfind (buildSwarmGrid s.gridmap s.swarm_pose []) s.uuid = none :=
      mfind_buildSwarmGrid_notin s.gridmap s.swarm_pose [] hu
    exact mfind_memplace_none hsg

/-- Witness for C2 amended at a concrete state. -/
theorem C2_world_to_grid_witness :
    mfind (divisionInput stateA).cps "robot1" =
      some (worldToGrid stateA.gridmap (⟨3, 4⟩ : Pose)) :=
  (C2_world_to_grid stateA (by decide)).2.1 "robot1" ⟨0, ⟨3, 4⟩⟩ (by rfl)
    (by decide)

/-- C3 counterexample: with the stored identity already assigned the
non-empty value "alpha", a further identity-provider message carrying
"beta" overwrites it — the stored uuid is not immutable. -/
theorem C3_counterexample :
    c3State.uuid = "alpha" ∧ c3State.uuid ≠ "" ∧
    (uuid_callback c3State "beta").uuid = "beta" ∧
    (uuid_callback c3State "beta").uuid ≠ "alpha" := by decide

/-- C3 amended: every identity-provider message overwrites the stored uuid,
also after a non-empty value was assigned; no other input (pose, swarm or
map message, or the query operation) changes it, and startup leaves the
identity wait phase only once the uuid is non-empty. -/
theorem C3_uuid_mutable_only_by_identity (s : NodeState) :
    (∀ v, (uuid_callback s v).uuid = v) ∧
    (∀ sv p, (pose_callback s sv p).uuid = s.uuid) ∧
    (∀ now rs, (swarm_callback now s rs).uuid = s.uuid) ∧
    (∀ g, (map_callback s g).uuid = s.uuid) ∧
    (get_area s).1.uuid = s.uuid ∧
    (advance .awaitingIdentity s ≠ .awaitingIdentity → s.uuid ≠ "") := by
  refine ⟨fun v => rfl, fun sv p => ?_,
    fun now rs => (swarm_callback_frame now s rs).1, fun g => rfl, ?_,
    advance_identity_gate s⟩
  · simp only [pose_callback]
    split <;> rfl
  · cases h : s.reconfigure <;> simp [get_area, divide_area, h]

/-- Witness for C3 amended at a concrete state. -/
theorem C3_uuid_mutable_witness :
    (swarm_callback 1 stateA []).uuid = stateA.uuid ∧ stateA.uuid ≠ "" :=
  ⟨(C3_uuid_mutable_only_by_identity stateA).2.2.1 1 [],
   (C3_uuid_mutable_only_by_identity stateA).2.2.2.2.2 (by decide)⟩

/-- C4: one report processed by the swarm callback: an unseen id is inserted
with the reported pose stamped with the current time and sets the
reconfiguration flag; a known id only has its record's pose and stamp
refreshed, other records and the flag untouched. -/
theorem C4_register_or_update (now : Int) (s : NodeState) (r : PositionReport) :
    (mfind s.swarm_pose r.node = none →
      (processReport now s r).swarm_pose =
        memplace s.swarm_pose r.node ⟨now, r.pose⟩ ∧
      mfind (processReport now s r).swarm_pose r.node = some ⟨now, r.pose⟩ ∧
      (∀ k, k ≠ r.node →
        mfind (processReport now s r).swarm_pose k = mfind s.swarm_pose k) ∧
      (processReport now s r).reconfigure = true) ∧
    (∀ w, mfind s.swarm_pose r.node = some w →
      (processReport now s r).swarm_pose =
        mupdate s.swarm_pose r.node ⟨now, r.pose⟩ ∧
      mfind (processReport now s r).swarm_pose r.node = some ⟨now, r.pose⟩ ∧
      (∀ k, k ≠ r.node →
        mfind (processReport now s r).swarm_pose k = mfind s.swarm_pose k) ∧
      (processReport now s r).reconfigure = s.reconfigure) := by
  constructor
  · intro h
    refine ⟨?_, ?_, fun k hk => ?_, ?_⟩
    · simp only [processReport, h]
    · simp only [processReport, h]
      exact mfind_memplace_none h
    · simp only [processReport, h]
      exact mfind_memplace_ne hk _
    · simp only [processReport, h]
  · intro w h
    refine ⟨?_, ?_, fun k hk => ?_, ?_⟩
    · simp only [processReport, h]
    · simp only [processReport, h]
      exact mfind_mupdate_self (by rw [h]; rfl)
    · simp only [processReport, h]
      exact mfind_mupdate_ne hk _
    · simp only [processReport, h]

/-- Witness for C4 at concrete inputs exercising both branches. -/
theorem C4_register_or_update_witness :
    (processReport 2 stateA ⟨"robot2", ⟨0, 0⟩⟩).reconfigure = true ∧
    (processReport 2 stateA ⟨"robot1", ⟨0, 0⟩⟩).reconfigure =
      stateA.reconfigure ∧
    mfind (processReport 2 stateA ⟨"robot1", ⟨0, 0⟩⟩).swarm_pose "robot1" =
      some ⟨2, ⟨0, 0⟩⟩ :=
  ⟨((C4_register_or_update 2 stateA ⟨"robot2", ⟨0, 0⟩⟩).1 (by decide)).2.2.2,
   ((C4_register_or_update 2 stateA ⟨"robot1", ⟨0, 0⟩⟩).2 ⟨0, ⟨3, 4⟩⟩
      (by rfl)).2.2.2,
   ((C4_register_or_update 2 stateA ⟨"robot1", ⟨0, 0⟩⟩).2 ⟨0, ⟨3, 4⟩⟩
      (by rfl)).2.1⟩

/-- C5: after the prune loop the registry holds exactly the records for
which timestamp + timeout < now fails, kept unchanged and in order, and the
resulting flag is true whenever at least one record was removed;
`swarm_callback` applies this to the post-report registry with the
configured timeout. -/
theorem C5_prune (now tmo : Int) (l : List (String × PoseStamped)) (rec : Bool)
    (s : NodeState) (reports : List PositionReport) :
    ((pruneLoop now tmo l rec).1 =
        l.filter (fun e => !decide (e.2.stamp + tmo < now)) ∧
      (pruneLoop now tmo l rec).2 =
        (rec || l.any (fun e => decide (e.2.stamp + tmo < now)))) ∧
    ((swarm_callback now s reports).swarm_pose =
        (reports.foldl (processReport now) s).swarm_pose.filter
          (fun e => !decide (e.2.stamp + s.swarm_timeout < now)) ∧
      ((∃ e ∈ (reports.foldl (processReport now) s).swarm_pose,
          e.2.stamp + s.swarm_timeout < now) →
        (swarm_callback now s reports).reconfigure = true)) := by
  have hto := (foldl_processReport_frame now reports s).2.2.2.2.2.2.2
  refine ⟨⟨pruneLoop_fst now tmo l rec, pruneLoop_snd now tmo l rec⟩, ?_, ?_⟩
  · show (pruneLoop now (reports.foldl (processReport now) s).swarm_timeout
        (reports.foldl (processReport now) s).swarm_pose
        (reports.foldl (processReport now) s).reconfigure).1 = _
    rw [pruneLoop_fst, hto]
  · rintro ⟨e, he, hlt⟩
    show (pruneLoop now (reports.foldl (processReport now) s).swarm_timeout
        (reports.foldl (processReport now) s).swarm_pose
        (reports.foldl (processReport now) s).reconfigure).2 = true
    rw [pruneLoop_snd, hto]
    have ha : (reports.foldl (processReport now) s).swarm_pose.any
        (fun e => decide (e.2.stamp + s.swarm_timeout < now)) = true :=
      List.any_eq_true.mpr ⟨e, he, decide_eq_true hlt⟩
    rw [ha, Bool.or_true]

/-- Witness for C5: a record stamped 0 with timeout 5 is pruned at
now = 10 and the flag is set. -/
theorem C5_prune_witness :
    (swarm_callback 10 staleState []).swarm_pose =
      staleState.swarm_pose.filter
        (fun e => !decide (e.2.stamp + staleState.swarm_timeout < 10)) ∧
    (swarm_callback 10 staleState []).reconfigure = true :=
  ⟨(C5_prune 10 5 [] false staleState []).2.1,
   (C5_prune 10 5 [] false staleState []).2.2
     ⟨("old", ⟨0, ⟨0, 0⟩⟩), List.mem_singleton.mpr rfl, by decide⟩⟩

/-- C6 counterexample: with the non-positive timeout −1 accepted straight
from the parameter read, startup still reaches Ready and the query service
becomes available — no fatal ConfigError exists. -/
theorem C6_counterexample :
    (-1 : Int) ≤ 0 ∧
    (runSys (-1) fullTrace).2.swarm_timeout = -1 ∧
    (runSys (-1) fullTrace).1 = .ready ∧
    serviceAvailable (runSys (-1) fullTrace).1 = true :=
  ⟨by decide, rfl, rfl, rfl⟩

/-- C6 amended: startup performs no parameter validation — any swarm_timeout
value (non-positive included) is stored as read and the node still reaches
Ready on a complete trace; the engine parameters are the hardcoded
setup(1, 0.01, 1e-4, 30), so max_iterations is the constant 30 > 0 and a
non-positive value cannot arise for it. -/
theorem C6_no_validation :
    (∀ t : Int, (runSys t fullTrace).1 = .ready ∧
      (runSys t fullTrace).2.swarm_timeout = t) ∧
    setupArgs = (1, 1/100, 1/10000, 30) ∧ (0 : Int) < setupArgs.2.2.2 :=
  ⟨fun _ => ⟨rfl, rfl⟩, rfl, by decide⟩

/-- C7: the query service exists only in the Ready phase; startup phases
only move forward, leave AwaitingIdentity only with a non-empty uuid, reach
AwaitingMap or beyond only with valid pose and swarm information, enter
Ready only with a valid map; on any message trace, a run whose phase is
Ready has valid pose, swarm and map information. -/
theorem C7_staged_readiness :
    (∀ p, serviceAvailable p = true ↔ p = .ready) ∧
    (∀ (p : Phase) (s : NodeState), phaseIdx p ≤ phaseIdx (advance p s)) ∧
    (∀ s : NodeState,
      advance .awaitingIdentity s ≠ .awaitingIdentity → s.uuid ≠ "") ∧
    (∀ (p : Phase) (s : NodeState), phaseIdx p ≤ 1 →
      2 ≤ phaseIdx (advance p s) →
      s.pose_valid = true ∧ s.swarm_valid = true) ∧
    (∀ (p : Phase) (s : NodeState), p ≠ .ready → advance p s = .ready →
      s.map_valid = true) ∧
    (∀ (t : Int) (msgs : List Msg), serviceAvailable (runSys t msgs).1 = true →
      (runSys t msgs).2.pose_valid = true ∧
      (runSys t msgs).2.swarm_valid = true ∧
      (runSys t msgs).2.map_valid = true) := by
  refine ⟨serviceAvailable_eq_ready, phaseIdx_advance_mono,
    advance_identity_gate, ?_, ?_, ?_⟩
  · intro p s hp h2
    rcases advance_flags2 p s h2 with hg | hf
    · omega
    · exact hf
  · intro p s hne hr
    rcases advance_flags3 p s hr with hg | hf
    · exact absurd hg hne
    · exact hf
  · intro t msgs hs
    exact runSys_flags t msgs ((serviceAvailable_eq_ready _).mp hs)

/-- Witness for C7 on a concrete full startup trace. -/
theorem C7_staged_readiness_witness :
    (runSys 5 fullTrace).2.pose_valid = true ∧
    (runSys 5 fullTrace).2.swarm_valid = true ∧
    (runSys 5 fullTrace).2.map_valid = true :=
  C7_staged_readiness.2.2.2.2.2 5 fullTrace (by decide)

/-- C8: a map message replaces the stored grid wholesale and marks it valid,
changing nothing else — not the reconfiguration flag, the registry, the own
pose, the identity, the other validity flags, the engine state, or the
timeout. -/
theorem C8_map_update_frame (s : NodeState) (g : OccupancyGrid) :
    (map_callback s g).gridmap = g ∧
    (map_callback s g).map_valid = true ∧
    (map_callback s g).reconfigure = s.reconfigure ∧
    (map_callback s g).swarm_pose = s.swarm_pose ∧
    (map_callback s g).pose = s.pose ∧
    (map_callback s g).uuid = s.uuid ∧
    (map_callback s g).pose_valid = s.pose_valid ∧
    (map_callback s g).swarm_valid = s.swarm_valid ∧
    (map_callback s g).division = s.division ∧
    (map_callback s g).swarm_timeout = s.swarm_timeout :=
  ⟨rfl, rfl, rfl, rfl, rfl, rfl, rfl, rfl, rfl, rfl⟩

/-- C9: the engine input enumerates robots in strictly increasing (lexical)
identity order; every registry reachable from startup is so ordered; and
two states agreeing on registry contents (as lookup functions), own pose,
identity and map produce identical engine inputs. -/
theorem C9_deterministic_enumeration :
    (∀ (t : Int) (msgs : List Msg), keySorted (runSys t msgs).2.swarm_pose) ∧
    (∀ s : NodeState, keySorted (divisionInput s).cps) ∧
    (∀ s1 s2 : NodeState, keySorted s1.swarm_pose → keySorted s2.swarm_pose →
      (∀ k, mfind s1.swarm_pose k = mfind s2.swarm_pose k) →
      s1.gridmap = s2.gridmap → s1.pose = s2.pose → s1.uuid = s2.uuid →
      divisionInput s1 = divisionInput s2) := by
  refine ⟨?_, ?_, ?_⟩
  · intro t msgs
    exact keySorted_foldl_stepSys msgs _ List.Pairwise.nil
  · intro s
    exact keySorted_memplace
      (keySorted_buildSwarmGrid s.gridmap s.swarm_pose [] List.Pairwise.nil)
  · intro s1 s2 h1 h2 hk hg hp hu
    have hreg : s1.swarm_pose = s2.swarm_pose := keySorted_ext h1 h2 hk
    simp only [divisionInput]
    rw [hreg, hg, hp, hu]

/-- Witness for C9 at two concrete states differing only in
partition-irrelevant fields. -/
theorem C9_deterministic_enumeration_witness :
    divisionInput stateA = divisionInput stateA2 :=
  C9_deterministic_enumeration.2.2 stateA stateA2 (by decide) (by decide)
    (fun _ => rfl) rfl rfl rfl

/-- C10: the engine input always contains this node's own identity — hence
is never empty — and when the own id is not among the registered swarm
members its entry is the grid conversion of the own pose. -/
theorem C10_own_id_included (s : NodeState) :
    (mfind (divisionInput s).cps s.uuid).isSome = true ∧
    (divisionInput s).cps ≠ [] ∧
    (mfind s.swarm_pose s.uuid = none →
      mfind (divisionInput s).cps s.uuid =
        some (worldToGrid s.gridmap s.pose)) := by
  refine ⟨mfind_memplace_self_isSome _, memplace_ne_nil _, fun hu => ?_⟩
  have hsg : mfind (buildSwarmGrid s.gridmap s.swarm_pose []) s.uuid = none :=
    mfind_buildSwarmGrid_notin s.gridmap s.swarm_pose [] hu
  exact mfind_memplace_none hsg

/-- Witness for C10 at a concrete state whose registry lacks the own id. -/
theorem C10_own_id_included_witness :
    mfind (divisionInput stateA).cps stateA.uuid =
      some (worldToGrid stateA.gridmap stateA.pose) :=
  (C10_own_id_included stateA).2.2 (by decide)

end AreaDivision
